import Mathlib

/-!
Verification of the bundle-adjustment numerical core of `ba_in_the_large`
(`src/python/ba_in_the_large/ba_solver.py` and `utils.py`).

The numpy code is embedded shallowly over the real numbers:
vectors and cameras become structures of reals, the vectorized
numpy expressions become per-row pure functions, and operations
that can raise (reshape of a wrongly sized slice, fancy indexing
with an out-of-range index, assignment to an out-of-range sparse
matrix position) become `Option`-valued functions that return
`none` exactly when the corresponding numpy call raises.
-/

namespace BAL

noncomputable section

/-- A 3-D point / vector, one row of an `(n, 3)` numpy array. -/
structure Vec3 where
  x : ℝ
  y : ℝ
  z : ℝ

instance : Inhabited Vec3 := ⟨⟨0, 0, 0⟩⟩

/-- A 2-D pixel, one row of an `(n, 2)` numpy array. -/
structure Vec2 where
  x : ℝ
  y : ℝ

instance : Inhabited Vec2 := ⟨⟨0, 0⟩⟩

/-- One camera: one row of the `(n_cameras, 9)` parameter array.
Fields follow the BAL layout: rotation vector, translation,
focal length, two radial-distortion coefficients. -/
structure Camera where
  rx : ℝ
  ry : ℝ
  rz : ℝ
  tx : ℝ
  ty : ℝ
  tz : ℝ
  f : ℝ
  k1 : ℝ
  k2 : ℝ

instance : Inhabited Camera := ⟨⟨0, 0, 0, 0, 0, 0, 0, 0, 0⟩⟩

/-- Componentwise sum, `a + b` on numpy rows. -/
def addV3 (a b : Vec3) : Vec3 := ⟨a.x + b.x, a.y + b.y, a.z + b.z⟩

/-- Scalar multiple, `c * a` on a numpy row. -/
def smulV3 (c : ℝ) (a : Vec3) : Vec3 := ⟨c * a.x, c * a.y, c * a.z⟩

/-- Componentwise division by a scalar, `a / c` on a numpy row.
In Lean, division of a real by `0` yields `0`, which coincides with
the `np.nan_to_num` post-processing applied in `rotate` (there the
numerator is also `0` whenever the denominator is). -/
def divV3 (a : Vec3) (c : ℝ) : Vec3 := ⟨a.x / c, a.y / c, a.z / c⟩

/-- `np.sum(a * b, axis=1)`: the Euclidean dot product of two rows. -/
def dotV3 (a b : Vec3) : ℝ := a.x * b.x + a.y * b.y + a.z * b.z

/-- `np.cross(a, b)`: the cross product of two rows. -/
def crossV3 (a b : Vec3) : Vec3 :=
  ⟨a.y * b.z - a.z * b.y, a.z * b.x - a.x * b.z, a.x * b.y - a.y * b.x⟩

/-- `np.linalg.norm(a, axis=1)`: the Euclidean norm of a row. -/
def normV3 (a : Vec3) : ℝ := Real.sqrt (a.x ^ 2 + a.y ^ 2 + a.z ^ 2)

/-- `rotate(points, rot_vecs)` from `ba_solver.py`, per row.

`theta = np.linalg.norm(rot_vecs, axis=1)`; `v = rot_vecs / theta`
(with `nan_to_num` mapping the `0/0` entries arising at `theta = 0`
to `0`, which is what Lean's division by zero already yields);
`dot = np.sum(points * v, axis=1)`; result
`cos_theta * points + sin_theta * np.cross(v, points) + dot * (1 - cos_theta) * v`. -/
noncomputable def rotate (p rv : Vec3) : Vec3 :=
  let theta := normV3 rv
  let v := divV3 rv theta
  let dot := dotV3 p v
  addV3 (addV3 (smulV3 (Real.cos theta) p)
               (smulV3 (Real.sin theta) (crossV3 v p)))
        (smulV3 (dot * (1 - Real.cos theta)) v)

/-- `project(points, camera_params)` from `ba_solver.py`, per row:
rotate by the first three camera parameters, add the next three,
perspective-divide with negated x and y, then apply the radial
distortion `r = 1 + k1 * n + k2 * n ** 2` with `n` the squared norm
of the normalized coordinates, and scale by `r * f`. -/
noncomputable def project (p : Vec3) (cam : Camera) : Vec2 :=
  let pr := rotate p ⟨cam.rx, cam.ry, cam.rz⟩
  let pt := addV3 pr ⟨cam.tx, cam.ty, cam.tz⟩
  let px := -pt.x / pt.z
  let py := -pt.y / pt.z
  let n := px ^ 2 + py ^ 2
  let r := 1 + cam.k1 * n + cam.k2 * n ^ 2
  ⟨px * (r * cam.f), py * (r * cam.f)⟩

/-- Row `j` of `params[:n_cameras * 9].reshape((n_cameras, 9))`:
the nine consecutive entries starting at `9*j`. -/
def camOf (params : List ℝ) (j : ℕ) : Camera :=
  ⟨params.getD (9 * j) 0, params.getD (9 * j + 1) 0, params.getD (9 * j + 2) 0,
   params.getD (9 * j + 3) 0, params.getD (9 * j + 4) 0, params.getD (9 * j + 5) 0,
   params.getD (9 * j + 6) 0, params.getD (9 * j + 7) 0, params.getD (9 * j + 8) 0⟩

/-- Row `j` of `params[n_cameras * 9:].reshape((n_points, 3))`:
the three consecutive entries starting at `9*n_cameras + 3*j`. -/
def ptOf (params : List ℝ) (n_cameras j : ℕ) : Vec3 :=
  ⟨params.getD (9 * n_cameras + 3 * j) 0,
   params.getD (9 * n_cameras + 3 * j + 1) 0,
   params.getD (9 * n_cameras + 3 * j + 2) 0⟩

/-- The conditions under which every array operation in
`compute_residuals` succeeds: the two reshapes need
`len(params) = 9*n_cameras + 3*n_points`, the fancy indexing needs
every index in range, and the elementwise arithmetic needs the three
observation arrays to have a common length.  When any of these fails
the numpy call raises. -/
def residualsOK (params : List ℝ) (n_cameras n_points : ℕ)
    (camera_indices point_indices : List ℕ) (points_2d : List Vec2) : Prop :=
  params.length = 9 * n_cameras + 3 * n_points ∧
  camera_indices.length = point_indices.length ∧
  point_indices.length = points_2d.length ∧
  (∀ c ∈ camera_indices, c < n_cameras) ∧
  (∀ q ∈ point_indices, q < n_points)

instance (params : List ℝ) (n_cameras n_points : ℕ)
    (camera_indices point_indices : List ℕ) (points_2d : List Vec2) :
    Decidable (residualsOK params n_cameras n_points camera_indices point_indices points_2d) := by
  unfold residualsOK
  infer_instance

/-- The residual pair of observation `i`:
`project(points_3d[point_indices[i]], camera_params[camera_indices[i]]) - points_2d[i]`. -/
def residualPair (params : List ℝ) (n_cameras : ℕ)
    (camera_indices point_indices : List ℕ) (points_2d : List Vec2) (i : ℕ) : List ℝ :=
  let pix := project (ptOf params n_cameras (point_indices.getD i 0))
                     (camOf params (camera_indices.getD i 0))
  let ob := points_2d.getD i default
  [pix.x - ob.x, pix.y - ob.y]

/-- `compute_residuals(params, n_cameras, n_points, camera_indices,
point_indices, points_2d)` from `ba_solver.py`: split `params` into the
camera rows and the point rows, gather the rows named by the two index
arrays, project, subtract the measured pixels, and `ravel` the
`(n_observations, 2)` result observation-major.  `none` models the
numpy exception raised when a reshape or an index is invalid. -/
def compute_residuals (params : List ℝ) (n_cameras n_points : ℕ)
    (camera_indices point_indices : List ℕ) (points_2d : List Vec2) : Option (List ℝ) :=
  if residualsOK params n_cameras n_points camera_indices point_indices points_2d then
    some ((List.range camera_indices.length).flatMap
      (residualPair params n_cameras camera_indices point_indices points_2d))
  else none

/-- The Rodrigues rotation formula as the spec states it:
`cos(theta) * p + sin(theta) * (axis x p) + (axis . p) * (1 - cos(theta)) * axis`. -/
def rodriguesFormula (p axis : Vec3) (theta : ℝ) : Vec3 :=
  addV3 (addV3 (smulV3 (Real.cos theta) p)
               (smulV3 (Real.sin theta) (crossV3 axis p)))
        (smulV3 (dotV3 axis p * (1 - Real.cos theta)) axis)

/-- `camera.ravel()`: one camera row flattened to its nine scalars. -/
def camToList (c : Camera) : List ℝ :=
  [c.rx, c.ry, c.rz, c.tx, c.ty, c.tz, c.f, c.k1, c.k2]

/-- `point.ravel()`: one point row flattened to its three scalars. -/
def vecToList (v : Vec3) : List ℝ := [v.x, v.y, v.z]

/-- `np.hstack((camera_params.ravel(), points_3d.ravel()))`:
the packed parameter vector handed to the optimizer. -/
def packParams (cams : List Camera) (pts : List Vec3) : List ℝ :=
  cams.flatMap camToList ++ pts.flatMap vecToList

/-- The residual vector written directly from the structured inputs:
`(project(points_3d[point_indices], camera_params[camera_indices]) - points_2d).ravel()`.
This is the spec-side expression of claim C6, compared against
`compute_residuals` on the packed vector. -/
def directResiduals (cams : List Camera) (pts : List Vec3)
    (camera_indices point_indices : List ℕ) (points_2d : List Vec2) : List ℝ :=
  (List.range camera_indices.length).flatMap fun i =>
    let pix := project (pts.getD (point_indices.getD i 0) default)
                       (cams.getD (camera_indices.getD i 0) default)
    let ob := points_2d.getD i default
    [pix.x - ob.x, pix.y - ob.y]

/-- The conditions under which every `lil_matrix` assignment in
`bundle_adjustment_sparsity` is in bounds: the two index arrays are
broadcast against each other (so share one length), and every written
column index is below `n = n_cameras * 9 + n_points * 3`. -/
def sparsityOK (n_cameras n_points : ℕ) (camera_indices point_indices : List ℕ) : Prop :=
  camera_indices.length = point_indices.length ∧
  (∀ c ∈ camera_indices, ∀ s < 9, c * 9 + s < n_cameras * 9 + n_points * 3) ∧
  (∀ q ∈ point_indices, ∀ s < 3, n_cameras * 9 + q * 3 + s < n_cameras * 9 + n_points * 3)

instance (n_cameras n_points : ℕ) (camera_indices point_indices : List ℕ) :
    Decidable (sparsityOK n_cameras n_points camera_indices point_indices) := by
  unfold sparsityOK
  infer_instance

/-- Whether position `(r, c)` of the sparsity matrix was assigned `1`:
some observation `i` owns row `r` (`r = 2*i` or `r = 2*i + 1`) and `c`
is one of the nine columns `camera_indices[i]*9 + s` or one of the
three columns `n_cameras*9 + point_indices[i]*3 + s`. -/
def sparsityEntry (n_cameras : ℕ) (camera_indices point_indices : List ℕ)
    (r c : ℕ) : Bool :=
  (List.range camera_indices.length).any fun i =>
    (decide (r = 2 * i) || decide (r = 2 * i + 1)) &&
    ((List.range 9).any (fun s => decide (c = camera_indices.getD i 0 * 9 + s)) ||
     (List.range 3).any (fun s => decide (c = n_cameras * 9 + point_indices.getD i 0 * 3 + s)))

/-- `bundle_adjustment_sparsity(n_cameras, n_points, camera_indices,
point_indices)` from `ba_solver.py`: a `lil_matrix` of shape
`(camera_indices.size * 2, n_cameras * 9 + n_points * 3)` holding `1`
exactly at the assigned positions, modelled as the shape pair plus the
boolean entry function.  `none` models the `IndexError` raised when an
assigned position is outside the declared shape. -/
def bundle_adjustment_sparsity (n_cameras n_points : ℕ)
    (camera_indices point_indices : List ℕ) :
    Option (ℕ × ℕ × (ℕ → ℕ → Bool)) :=
  if sparsityOK n_cameras n_points camera_indices point_indices then
    some (camera_indices.length * 2, n_cameras * 9 + n_points * 3,
          sparsityEntry n_cameras camera_indices point_indices)
  else none

/-- The arguments shared by the two solver entry points. -/
structure BAInput where
  camera_params : List Camera
  points_3d : List Vec3
  camera_indices : List ℕ
  point_indices : List ℕ
  points_2d : List Vec2
  verbose : ℕ

/-- `solve_bundle_adjustment_scipy` from `ba_solver.py`: pack the
parameter vector, build the sparsity structure, and hand both together
with the residual closure and the verbosity to `scipy.optimize.least_squares`.
The external SciPy optimizer is not part of this repository and is
abstracted as the function argument `least_squares`. -/
def solve_bundle_adjustment_scipy {R : Type}
    (least_squares : (List ℝ → Option (List ℝ)) → List ℝ →
      Option (ℕ × ℕ × (ℕ → ℕ → Bool)) → ℕ → R)
    (inp : BAInput) : R :=
  let n_cameras := inp.camera_params.length
  let n_points := inp.points_3d.length
  let x0 := packParams inp.camera_params inp.points_3d
  let A := bundle_adjustment_sparsity n_cameras n_points inp.camera_indices inp.point_indices
  least_squares
    (fun params => compute_residuals params n_cameras n_points
      inp.camera_indices inp.point_indices inp.points_2d)
    x0 A inp.verbose

/-- `solve_bundle_adjustment` from `ba_solver.py`: dispatch to the Ceres
C++ backend when `use_ceres` is requested and the extension imported,
otherwise fall back to `solve_bundle_adjustment_scipy` on the same
arguments.  The external Ceres backend (not part of this repository)
is abstracted as `ceres_solver`, receiving the inputs and the
`verbose > 1` flag the code passes it. -/
def solve_bundle_adjustment {R : Type}
    (least_squares : (List ℝ → Option (List ℝ)) → List ℝ →
      Option (ℕ × ℕ × (ℕ → ℕ → Bool)) → ℕ → R)
    (ceres_available : Bool) (ceres_solver : BAInput → Bool → R)
    (use_ceres : Bool) (inp : BAInput) : R :=
  if use_ceres && ceres_available then
    ceres_solver inp (decide (1 < inp.verbose))
  else
    solve_bundle_adjustment_scipy least_squares inp

/-- A BAL problem file, pre-tokenized: the three header integers, the
`n_observations` observation lines (camera index, point index, x, y),
and the stream of one-number-per-line values that follows. -/
structure BalFile where
  n_cameras : ℕ
  n_points : ℕ
  n_observations : ℕ
  obs_lines : List (ℕ × ℕ × ℝ × ℝ)
  value_lines : List ℝ

/-- `reshape((rows, -1))` of a flat list into `rows` rows of `width`. -/
def reshapeRows : ℕ → ℕ → List ℝ → List (List ℝ)
  | 0, _, _ => []
  | r + 1, width, l => l.take width :: reshapeRows r width (l.drop width)

/-- `read_bal_data` from `utils.py`: read `n_observations` index/pixel
lines, then `n_cameras * 9` camera values reshaped to `(n_cameras, 9)`,
then `n_points * 3` point values reshaped to `(n_points, 3)`.  `none`
models the exception raised when the file runs out of lines. -/
def read_bal_data (file : BalFile) :
    Option (List (List ℝ) × List (List ℝ) × List ℕ × List ℕ × List (ℝ × ℝ)) :=
  if file.n_observations ≤ file.obs_lines.length ∧
      file.n_cameras * 9 + file.n_points * 3 ≤ file.value_lines.length then
    let obs := file.obs_lines.take file.n_observations
    let camera_indices := obs.map (fun o => o.1)
    let point_indices := obs.map (fun o => o.2.1)
    let points_2d := obs.map (fun o => (o.2.2.1, o.2.2.2))
    let camera_params := reshapeRows file.n_cameras 9
      (file.value_lines.take (file.n_cameras * 9))
    let points_3d := reshapeRows file.n_points 3
      ((file.value_lines.drop (file.n_cameras * 9)).take (file.n_points * 3))
    some (camera_params, points_3d, camera_indices, point_indices, points_2d)
  else none

end

lemma dotV3_comm (a b : Vec3) : dotV3 a b = dotV3 b a := by
  simp only [dotV3]; ring

lemma length_flatMap_pair (g : ℕ → List ℝ) (hg : ∀ i, (g i).length = 2) (n : ℕ) :
    ((List.range n).flatMap g).length = 2 * n := by
  induction n with
  | zero => simp
  | succ n ih =>
    rw [List.range_succ, List.flatMap_append, List.length_append, ih]
    simp [hg]
    ring

lemma getD_flatMap_pair (g : ℕ → List ℝ) (hg : ∀ i, (g i).length = 2) (n i : ℕ)
    (h : i < n) :
    ((List.range n).flatMap g).getD (2 * i) 0 = (g i).getD 0 0 ∧
    ((List.range n).flatMap g).getD (2 * i + 1) 0 = (g i).getD 1 0 := by
  induction n with
  | zero => omega
  | succ n ih =>
    rw [List.range_succ, List.flatMap_append]
    rcases Nat.lt_or_ge i n with hlt | hge
    · have h2 : 2 * i < ((List.range n).flatMap g).length := by
        rw [length_flatMap_pair g hg]; omega
      have h3 : 2 * i + 1 < ((List.range n).flatMap g).length := by
        rw [length_flatMap_pair g hg]; omega
      rw [List.getD_append _ _ _ _ h2, List.getD_append _ _ _ _ h3]
      exact ih hlt
    · have hi : i = n := by omega
      subst hi
      have hlen : ((List.range i).flatMap g).length = 2 * i := length_flatMap_pair g hg i
      constructor
      · rw [List.getD_append_right _ _ _ _ (by omega), hlen]
        simp
      · rw [List.getD_append_right _ _ _ _ (by omega), hlen]
        simp

lemma residualPair_length (params : List ℝ) (n_cameras : ℕ)
    (camera_indices point_indices : List ℕ) (points_2d : List Vec2) (i : ℕ) :
    (residualPair params n_cameras camera_indices point_indices points_2d i).length = 2 := rfl

/-- Claim C1: on a parameter vector of length `9*n_cameras + 3*n_points`
and a well-formed observation list, `compute_residuals` succeeds and the
result has length `2*n_observations`, with entries `2*i` and `2*i+1`
equal to the x and y components of
`project(point[point_indices[i]], camera[camera_indices[i]]) - points_2d[i]`. -/
theorem compute_residuals_entries (params : List ℝ) (n_cameras n_points : ℕ)
    (camera_indices point_indices : List ℕ) (points_2d : List Vec2)
    (hlen : params.length = 9 * n_cameras + 3 * n_points)
    (hc : camera_indices.length = point_indices.length)
    (hp : point_indices.length = points_2d.length)
    (hbc : ∀ c ∈ camera_indices, c < n_cameras)
    (hbp : ∀ q ∈ point_indices, q < n_points) :
    ∃ res : List ℝ,
      compute_residuals params n_cameras n_points camera_indices point_indices points_2d =
        some res ∧
      res.length = 2 * camera_indices.length ∧
      ∀ i < camera_indices.length,
        res.getD (2 * i) 0 =
          (project (ptOf params n_cameras (point_indices.getD i 0))
                   (camOf params (camera_indices.getD i 0))).x -
            (points_2d.getD i default).x ∧
        res.getD (2 * i + 1) 0 =
          (project (ptOf params n_cameras (point_indices.getD i 0))
                   (camOf params (camera_indices.getD i 0))).y -
            (points_2d.getD i default).y := by
  refine ⟨(List.range camera_indices.length).flatMap
      (residualPair params n_cameras camera_indices point_indices points_2d), ?_, ?_, ?_⟩
  · rw [compute_residuals, if_pos ⟨hlen, hc, hp, hbc, hbp⟩]
  · exact length_flatMap_pair _ (residualPair_length params n_cameras _ _ _) _
  · intro i hi
    have hpair := getD_flatMap_pair
      (residualPair params n_cameras camera_indices point_indices points_2d)
      (residualPair_length params n_cameras _ _ _) _ i hi
    exact ⟨hpair.1, hpair.2⟩

/-- Witness for C1: one camera, one point, one observation. -/
theorem compute_residuals_entries_witness :
    ([(0:ℝ), 0, 0, 0, 0, 0, 1, 0, 0, 1, 2, 5].length = 9 * 1 + 3 * 1) ∧
    (∀ c ∈ [0], c < 1) ∧ (∀ q ∈ [0], q < 1) ∧
    (∃ res : List ℝ,
      compute_residuals [(0:ℝ), 0, 0, 0, 0, 0, 1, 0, 0, 1, 2, 5] 1 1 [0] [0] [⟨0, 0⟩] =
        some res ∧
      res.length = 2 * ([0] : List ℕ).length ∧
      ∀ i < ([0] : List ℕ).length,
        res.getD (2 * i) 0 =
          (project (ptOf [(0:ℝ), 0, 0, 0, 0, 0, 1, 0, 0, 1, 2, 5] 1 (([0] : List ℕ).getD i 0))
                   (camOf [(0:ℝ), 0, 0, 0, 0, 0, 1, 0, 0, 1, 2, 5] (([0] : List ℕ).getD i 0))).x -
            (([⟨0, 0⟩] : List Vec2).getD i default).x ∧
        res.getD (2 * i + 1) 0 =
          (project (ptOf [(0:ℝ), 0, 0, 0, 0, 0, 1, 0, 0, 1, 2, 5] 1 (([0] : List ℕ).getD i 0))
                   (camOf [(0:ℝ), 0, 0, 0, 0, 0, 1, 0, 0, 1, 2, 5] (([0] : List ℕ).getD i 0))).y -
            (([⟨0, 0⟩] : List Vec2).getD i default).y) :=
  ⟨rfl, by decide, by decide,
    compute_residuals_entries _ 1 1 [0] [0] [⟨0, 0⟩] rfl rfl rfl
      (by decide) (by decide)⟩

/-- Claim C7: when every camera index is below `n_cameras`, every point
index is below `n_points`, the observation arrays share one length and
`params` has length exactly `9*n_cameras + 3*n_points`, every array
access in `compute_residuals` is in bounds and it completes normally. -/
theorem compute_residuals_no_index_error (params : List ℝ) (n_cameras n_points : ℕ)
    (camera_indices point_indices : List ℕ) (points_2d : List Vec2)
    (hlen : params.length = 9 * n_cameras + 3 * n_points)
    (hc : camera_indices.length = point_indices.length)
    (hp : point_indices.length = points_2d.length)
    (hbc : ∀ c ∈ camera_indices, c < n_cameras)
    (hbp : ∀ q ∈ point_indices, q < n_points) :
    (compute_residuals params n_cameras n_points camera_indices point_indices
        points_2d).isSome = true := by
  rw [compute_residuals, if_pos ⟨hlen, hc, hp, hbc, hbp⟩]
  rfl

/-- Witness for C7: two observations of one camera and two points. -/
theorem compute_residuals_no_index_error_witness :
    ([(0:ℝ), 0, 0, 0, 0, 0, 1, 0, 0, 1, 2, 5, 3, 4, 6].length = 9 * 1 + 3 * 2) ∧
    (∀ c ∈ [0, 0], c < 1) ∧ (∀ q ∈ [0, 1], q < 2) ∧
    (compute_residuals [(0:ℝ), 0, 0, 0, 0, 0, 1, 0, 0, 1, 2, 5, 3, 4, 6] 1 2 [0, 0] [0, 1]
        [⟨0, 0⟩, ⟨1, 1⟩]).isSome = true :=
  ⟨rfl, by decide, by decide,
    compute_residuals_no_index_error _ 1 2 [0, 0] [0, 1] [⟨0, 0⟩, ⟨1, 1⟩] rfl rfl rfl
      (by decide) (by decide)⟩

/-- Claim C2: `project` rotates the point by the camera's rotation vector,
adds the translation, negates the x and y components and divides them by
the z component, computes `n = x^2 + y^2` in normalized coordinates and
`r = 1 + k1*n + k2*n^2`, and scales both components by `r*f`. -/
theorem project_eq_pinhole_radial (p : Vec3) (cam : Camera) :
    project p cam =
      let translated := addV3 (rotate p ⟨cam.rx, cam.ry, cam.rz⟩) ⟨cam.tx, cam.ty, cam.tz⟩
      let xn := -translated.x / translated.z
      let yn := -translated.y / translated.z
      let n := xn ^ 2 + yn ^ 2
      let r := 1 + cam.k1 * n + cam.k2 * n ^ 2
      Vec2.mk (r * cam.f * xn) (r * cam.f * yn) := by
  simp only [project, Vec2.mk.injEq]
  constructor <;> ring

/-- Claim C3: for a rotation vector of positive magnitude `theta`,
`rotate` computes Rodrigues' formula with unit axis `rv / theta`. -/
theorem rotate_eq_rodrigues (p rv : Vec3) (h : 0 < normV3 rv) :
    rotate p rv = rodriguesFormula p (divV3 rv (normV3 rv)) (normV3 rv) := by
  simp only [rotate, rodriguesFormula]
  rw [dotV3_comm]

/-- Witness for C3 at `p = (2,3,4)`, `rv = (1,0,0)`. -/
theorem rotate_eq_rodrigues_witness :
    0 < normV3 ⟨1, 0, 0⟩ ∧
      rotate ⟨2, 3, 4⟩ ⟨1, 0, 0⟩ =
        rodriguesFormula ⟨2, 3, 4⟩ (divV3 ⟨1, 0, 0⟩ (normV3 ⟨1, 0, 0⟩)) (normV3 ⟨1, 0, 0⟩) := by
  have h : 0 < normV3 ⟨1, 0, 0⟩ := by
    simp only [normV3]
    rw [Real.sqrt_pos]
    norm_num
  exact ⟨h, rotate_eq_rodrigues _ _ h⟩

/-- Counterexample to claim C4: the rotation vector `(1e-13, 0, 0)` has
magnitude `1e-13 < 1e-12`, yet `rotate (0,1,0)` by it is not `(0,1,0)`:
the code applies the full Rodrigues formula for every nonzero magnitude
and only the exactly-zero magnitude is mapped to the identity. -/
theorem rotate_small_theta_counterexample :
    normV3 ⟨1e-13, 0, 0⟩ < 1e-12 ∧
      rotate ⟨0, 1, 0⟩ ⟨1e-13, 0, 0⟩ ≠ (⟨0, 1, 0⟩ : Vec3) := by
  have hθ : normV3 ⟨1e-13, 0, 0⟩ = 1e-13 := by
    simp only [normV3]
    have h1 : ((1e-13 : ℝ)) ^ 2 + 0 ^ 2 + 0 ^ 2 = (1e-13 : ℝ) ^ 2 := by norm_num
    rw [h1, Real.sqrt_sq (by norm_num)]
  have hsin : 0 < Real.sin 1e-13 :=
    Real.sin_pos_of_pos_of_lt_pi (by norm_num)
      (lt_trans (by norm_num) Real.pi_gt_three)
  refine ⟨by rw [hθ]; norm_num, fun heq => ?_⟩
  have hz := congrArg Vec3.z heq
  simp only [rotate, hθ, addV3, smulV3, divV3, dotV3, crossV3] at hz
  norm_num at hz
  linarith

/-- Claim C4 amended: `rotate` returns the input point exactly when the
rotation-vector magnitude is zero (the `nan_to_num` guard maps the
`0/0` axis to zero, and `cos 0 = 1`, `sin 0 = 0` leave the point fixed). -/
theorem rotate_zero_norm (p rv : Vec3) (h : normV3 rv = 0) : rotate p rv = p := by
  cases p with
  | mk px py pz =>
    simp only [rotate, h, addV3, smulV3, divV3, dotV3, crossV3,
      Real.cos_zero, Real.sin_zero, Vec3.mk.injEq]
    refine ⟨by ring, by ring, by ring⟩

/-- Witness for the amended C4 at `p = (5,6,7)`, `rv = 0`. -/
theorem rotate_zero_norm_witness :
    normV3 ⟨0, 0, 0⟩ = 0 ∧ rotate ⟨5, 6, 7⟩ ⟨0, 0, 0⟩ = (⟨5, 6, 7⟩ : Vec3) := by
  have h : normV3 ⟨0, 0, 0⟩ = 0 := by
    simp [normV3]
  exact ⟨h, rotate_zero_norm _ _ h⟩

lemma length_flatMap_const {α : Type} (f : α → List ℝ) (k : ℕ)
    (hf : ∀ a, (f a).length = k) (l : List α) :
    (l.flatMap f).length = k * l.length := by
  induction l with
  | nil => simp
  | cons a tl ih =>
    simp only [List.flatMap_cons, List.length_append, ih, hf, List.length_cons]
    ring

lemma getD_flatMap_const {α : Type} (f : α → List ℝ) (k : ℕ)
    (hf : ∀ a, (f a).length = k) (l : List α) (d : α) (j r : ℕ)
    (hj : j < l.length) (hr : r < k) :
    (l.flatMap f).getD (k * j + r) 0 = (f (l.getD j d)).getD r 0 := by
  induction l generalizing j with
  | nil => simp at hj
  | cons a tl ih =>
    rw [List.flatMap_cons]
    cases j with
    | zero =>
      have hrk : k * 0 + r < (f a).length := by rw [hf]; omega
      rw [List.getD_append _ _ _ _ hrk]
      simp
    | succ j =>
      have hge : (f a).length ≤ k * (j + 1) + r := by
        rw [hf]
        have : k * (j + 1) = k * j + k := by ring
        omega
      rw [List.getD_append_right _ _ _ _ hge, hf]
      have harith : k * (j + 1) + r - k = k * j + r := by
        have : k * (j + 1) = k * j + k := by ring
        omega
      rw [harith]
      simp only [List.getD_cons_succ]
      exact ih j (by simpa using hj)

lemma camToList_length (c : Camera) : (camToList c).length = 9 := rfl

lemma vecToList_length (v : Vec3) : (vecToList v).length = 3 := rfl

lemma packParams_length (cams : List Camera) (pts : List Vec3) :
    (packParams cams pts).length = 9 * cams.length + 3 * pts.length := by
  simp only [packParams, List.length_append,
    length_flatMap_const camToList 9 camToList_length,
    length_flatMap_const vecToList 3 vecToList_length]

lemma camOf_packParams (cams : List Camera) (pts : List Vec3) (j : ℕ)
    (hj : j < cams.length) :
    camOf (packParams cams pts) j = cams.getD j default := by
  have hcam : (cams.flatMap camToList).length = 9 * cams.length :=
    length_flatMap_const camToList 9 camToList_length cams
  have key : ∀ r : ℕ, r < 9 →
      (packParams cams pts).getD (9 * j + r) 0 =
        (camToList (cams.getD j default)).getD r 0 := by
    intro r hr
    have hin : 9 * j + r < (cams.flatMap camToList).length := by
      rw [hcam]; omega
    rw [packParams, List.getD_append _ _ _ _ hin]
    exact getD_flatMap_const camToList 9 camToList_length cams default j r hj hr
  have h0 := key 0 (by omega)
  have h1 := key 1 (by omega)
  have h2 := key 2 (by omega)
  have h3 := key 3 (by omega)
  have h4 := key 4 (by omega)
  have h5 := key 5 (by omega)
  have h6 := key 6 (by omega)
  have h7 := key 7 (by omega)
  have h8 := key 8 (by omega)
  simp only [camToList, List.getD_cons_succ, List.getD_cons_zero] at h0 h1 h2 h3 h4 h5 h6 h7 h8
  rw [Nat.add_zero] at h0
  simp only [camOf, h0, h1, h2, h3, h4, h5, h6, h7, h8]

lemma ptOf_packParams (cams : List Camera) (pts : List Vec3) (j : ℕ)
    (hj : j < pts.length) :
    ptOf (packParams cams pts) cams.length j = pts.getD j default := by
  have hcam : (cams.flatMap camToList).length = 9 * cams.length :=
    length_flatMap_const camToList 9 camToList_length cams
  have key : ∀ r : ℕ, r < 3 →
      (packParams cams pts).getD (9 * cams.length + 3 * j + r) 0 =
        (vecToList (pts.getD j default)).getD r 0 := by
    intro r hr
    have hge : (cams.flatMap camToList).length ≤ 9 * cams.length + 3 * j + r := by
      rw [hcam]; omega
    rw [packParams, List.getD_append_right _ _ _ _ hge, hcam]
    have harith : 9 * cams.length + 3 * j + r - 9 * cams.length = 3 * j + r := by omega
    rw [harith]
    exact getD_flatMap_const vecToList 3 vecToList_length pts default j r hj hr
  have h0 := key 0 (by omega)
  have h1 := key 1 (by omega)
  have h2 := key 2 (by omega)
  simp only [vecToList, List.getD_cons_succ, List.getD_cons_zero] at h0 h1 h2
  rw [Nat.add_zero] at h0
  simp only [ptOf, h0, h1, h2]

lemma flatMap_congr_mem {α β : Type} (l : List α) (f g : α → List β)
    (h : ∀ a ∈ l, f a = g a) : l.flatMap f = l.flatMap g := by
  induction l with
  | nil => rfl
  | cons a tl ih =>
    simp only [List.flatMap_cons]
    rw [h a (by simp), ih (fun b hb => h b (by simp [hb]))]

/-- Claim C6: packing the structured camera and point rows into the flat
parameter vector and running `compute_residuals` recovers exactly the
original rows, so the result is
`(project(points_3d[point_indices], camera_params[camera_indices]) - points_2d).ravel()`. -/
theorem compute_residuals_packParams (cams : List Camera) (pts : List Vec3)
    (camera_indices point_indices : List ℕ) (points_2d : List Vec2)
    (hc : camera_indices.length = point_indices.length)
    (hp : point_indices.length = points_2d.length)
    (hbc : ∀ c ∈ camera_indices, c < cams.length)
    (hbp : ∀ q ∈ point_indices, q < pts.length) :
    (∀ j < cams.length, camOf (packParams cams pts) j = cams.getD j default) ∧
    (∀ j < pts.length, ptOf (packParams cams pts) cams.length j = pts.getD j default) ∧
    compute_residuals (packParams cams pts) cams.length pts.length
        camera_indices point_indices points_2d =
      some (directResiduals cams pts camera_indices point_indices points_2d) := by
  refine ⟨fun j hj => camOf_packParams cams pts j hj,
          fun j hj => ptOf_packParams cams pts j hj, ?_⟩
  rw [compute_residuals,
    if_pos ⟨packParams_length cams pts, hc, hp, hbc, hbp⟩]
  refine congrArg some ?_
  refine flatMap_congr_mem _ _ _ ?_
  intro i hi
  have hi' : i < camera_indices.length := List.mem_range.mp hi
  have hci : camera_indices.getD i 0 ∈ camera_indices := by
    rw [List.getD_eq_getElem _ _ hi']
    exact List.getElem_mem _
  have hpi : point_indices.getD i 0 ∈ point_indices := by
    rw [List.getD_eq_getElem _ _ (by omega)]
    exact List.getElem_mem _
  simp only [residualPair]
  rw [camOf_packParams cams pts _ (hbc _ hci),
    ptOf_packParams cams pts _ (hbp _ hpi)]

/-- Witness for C6: one camera, two points, two observations. -/
theorem compute_residuals_packParams_witness :
    ((∀ c ∈ [0, 0], c < ([⟨0, 0, 0, 0, 0, 0, 1, 0, 0⟩] : List Camera).length) ∧
     (∀ q ∈ [0, 1], q < ([⟨1, 2, 5⟩, ⟨3, 4, 6⟩] : List Vec3).length)) ∧
    compute_residuals
        (packParams [⟨0, 0, 0, 0, 0, 0, 1, 0, 0⟩] [⟨1, 2, 5⟩, ⟨3, 4, 6⟩]) 1 2
        [0, 0] [0, 1] [⟨0, 0⟩, ⟨1, 1⟩] =
      some (directResiduals [⟨0, 0, 0, 0, 0, 0, 1, 0, 0⟩] [⟨1, 2, 5⟩, ⟨3, 4, 6⟩]
        [0, 0] [0, 1] [⟨0, 0⟩, ⟨1, 1⟩]) :=
  ⟨⟨by decide, by decide⟩,
    (compute_residuals_packParams [⟨0, 0, 0, 0, 0, 0, 1, 0, 0⟩] [⟨1, 2, 5⟩, ⟨3, 4, 6⟩]
      [0, 0] [0, 1] [⟨0, 0⟩, ⟨1, 1⟩] rfl rfl (by decide) (by decide)).2.2⟩

lemma sparsityEntry_iff (n_cameras : ℕ) (camera_indices point_indices : List ℕ)
    (r c : ℕ) :
    sparsityEntry n_cameras camera_indices point_indices r c = true ↔
      ∃ i < camera_indices.length, (r = 2 * i ∨ r = 2 * i + 1) ∧
        ((∃ s < 9, c = camera_indices.getD i 0 * 9 + s) ∨
         (∃ s < 3, c = n_cameras * 9 + point_indices.getD i 0 * 3 + s)) := by
  simp [sparsityEntry, List.any_eq_true, List.mem_range, Bool.and_eq_true,
    Bool.or_eq_true, decide_eq_true_iff]

/-- Claim C5: on in-range index arrays of a common length, the sparsity
matrix has shape `(2*n_obs, 9*n_cameras + 3*n_points)`, and for every
observation `i` each of the rows `2*i` and `2*i+1` is nonzero exactly at
the 9 columns `camera_indices[i]*9 .. +8` and the 3 columns
`n_cameras*9 + point_indices[i]*3 .. +2`, hence at exactly 12 columns;
the pattern is a function of the index arrays alone. -/
theorem bundle_adjustment_sparsity_pattern (n_cameras n_points : ℕ)
    (camera_indices point_indices : List ℕ)
    (hlen : camera_indices.length = point_indices.length)
    (hbc : ∀ c ∈ camera_indices, c < n_cameras)
    (hbp : ∀ q ∈ point_indices, q < n_points) :
    ∃ E : ℕ → ℕ → Bool,
      bundle_adjustment_sparsity n_cameras n_points camera_indices point_indices =
        some (camera_indices.length * 2, n_cameras * 9 + n_points * 3, E) ∧
      ∀ i < camera_indices.length, ∀ r, (r = 2 * i ∨ r = 2 * i + 1) →
        (∀ c, E r c = true ↔
          ((∃ s < 9, c = camera_indices.getD i 0 * 9 + s) ∨
           (∃ s < 3, c = n_cameras * 9 + point_indices.getD i 0 * 3 + s))) ∧
        ((Finset.range (n_cameras * 9 + n_points * 3)).filter
            (fun c => E r c = true)).card = 12 := by
  have hOK : sparsityOK n_cameras n_points camera_indices point_indices := by
    refine ⟨hlen, ?_, ?_⟩
    · intro c hc s hs
      have := hbc c hc
      omega
    · intro q hq s hs
      have := hbp q hq
      omega
  refine ⟨sparsityEntry n_cameras camera_indices point_indices, ?_, ?_⟩
  · rw [bundle_adjustment_sparsity, if_pos hOK]
  · intro i hi r hr
    have hgc : camera_indices.getD i 0 < n_cameras := by
      have hm : camera_indices.getD i 0 ∈ camera_indices := by
        rw [List.getD_eq_getElem _ _ hi]
        exact List.getElem_mem _
      exact hbc _ hm
    have hgp : point_indices.getD i 0 < n_points := by
      have hip : i < point_indices.length := by omega
      have hm : point_indices.getD i 0 ∈ point_indices := by
        rw [List.getD_eq_getElem _ _ hip]
        exact List.getElem_mem _
      exact hbp _ hm
    have hiff : ∀ c, sparsityEntry n_cameras camera_indices point_indices r c = true ↔
        ((∃ s < 9, c = camera_indices.getD i 0 * 9 + s) ∨
         (∃ s < 3, c = n_cameras * 9 + point_indices.getD i 0 * 3 + s)) := by
      intro c
      rw [sparsityEntry_iff]
      constructor
      · rintro ⟨i', hi', hr', hcols⟩
        have hii : i' = i := by
          clear hcols
          rcases hr with hr | hr <;> rcases hr' with hr' | hr' <;> omega
        subst hii
        exact hcols
      · intro hcols
        exact ⟨i, hi, hr, hcols⟩
    refine ⟨hiff, ?_⟩
    have hset : (Finset.range (n_cameras * 9 + n_points * 3)).filter
        (fun c => sparsityEntry n_cameras camera_indices point_indices r c = true) =
        ((Finset.range 9).image fun s => camera_indices.getD i 0 * 9 + s) ∪
        ((Finset.range 3).image fun s => n_cameras * 9 + point_indices.getD i 0 * 3 + s) := by
      ext c
      simp only [Finset.mem_filter, Finset.mem_range, Finset.mem_union, Finset.mem_image]
      rw [hiff c]
      constructor
      · rintro ⟨hcN, ⟨s, hs, rfl⟩ | ⟨s, hs, rfl⟩⟩
        · exact Or.inl ⟨s, hs, rfl⟩
        · exact Or.inr ⟨s, hs, rfl⟩
      · rintro (⟨s, hs, rfl⟩ | ⟨s, hs, rfl⟩)
        · exact ⟨by omega, Or.inl ⟨s, hs, rfl⟩⟩
        · exact ⟨by omega, Or.inr ⟨s, hs, rfl⟩⟩
    have hinj1 : Function.Injective (fun s : ℕ => camera_indices.getD i 0 * 9 + s) :=
      fun a b h => Nat.add_left_cancel h
    have hinj2 : Function.Injective
        (fun s : ℕ => n_cameras * 9 + point_indices.getD i 0 * 3 + s) :=
      fun a b h => Nat.add_left_cancel h
    have hdisj : Disjoint
        ((Finset.range 9).image fun s => camera_indices.getD i 0 * 9 + s)
        ((Finset.range 3).image fun s => n_cameras * 9 + point_indices.getD i 0 * 3 + s) := by
      rw [Finset.disjoint_left]
      intro c hc1 hc2
      simp only [Finset.mem_image, Finset.mem_range] at hc1 hc2
      obtain ⟨s, hs, rfl⟩ := hc1
      obtain ⟨t, ht, heq⟩ := hc2
      omega
    rw [hset, Finset.card_union_of_disjoint hdisj,
      Finset.card_image_of_injective _ hinj1, Finset.card_image_of_injective _ hinj2,
      Finset.card_range, Finset.card_range]

/-- Witness for C5: one camera, one point, one observation. -/
theorem bundle_adjustment_sparsity_pattern_witness :
    ((∀ c ∈ [0], c < 1) ∧ (∀ q ∈ [0], q < 1)) ∧
    (∃ E : ℕ → ℕ → Bool,
      bundle_adjustment_sparsity 1 1 [0] [0] =
        some (([0] : List ℕ).length * 2, 1 * 9 + 1 * 3, E) ∧
      ∀ i < ([0] : List ℕ).length, ∀ r, (r = 2 * i ∨ r = 2 * i + 1) →
        (∀ c, E r c = true ↔
          ((∃ s < 9, c = ([0] : List ℕ).getD i 0 * 9 + s) ∨
           (∃ s < 3, c = 1 * 9 + ([0] : List ℕ).getD i 0 * 3 + s))) ∧
        ((Finset.range (1 * 9 + 1 * 3)).filter (fun c => E r c = true)).card = 12) :=
  ⟨⟨by decide, by decide⟩,
    bundle_adjustment_sparsity_pattern 1 1 [0] [0] rfl (by decide) (by decide)⟩

/-- Claim C8: with `use_ceres = false`, or with `use_ceres = true` while
the Ceres extension is unavailable, `solve_bundle_adjustment` returns
exactly `solve_bundle_adjustment_scipy` applied to the same inputs. -/
theorem solve_bundle_adjustment_fallback {R : Type}
    (least_squares : (List ℝ → Option (List ℝ)) → List ℝ →
      Option (ℕ × ℕ × (ℕ → ℕ → Bool)) → ℕ → R)
    (ceres_available : Bool) (ceres_solver : BAInput → Bool → R)
    (use_ceres : Bool) (inp : BAInput)
    (h : use_ceres = false ∨ ceres_available = false) :
    solve_bundle_adjustment least_squares ceres_available ceres_solver use_ceres inp =
      solve_bundle_adjustment_scipy least_squares inp := by
  rcases h with h | h <;> subst h <;>
    simp [solve_bundle_adjustment]

/-- Witness for C8: the fallback path with `use_ceres = false` while the
Ceres extension is available. -/
theorem solve_bundle_adjustment_fallback_witness :
    ((false = false ∨ true = false) ∧
      solve_bundle_adjustment (fun _ _ _ _ => (0 : ℕ)) true (fun _ _ => 1) false
          ⟨[], [], [], [], [], 2⟩ =
        solve_bundle_adjustment_scipy (fun _ _ _ _ => (0 : ℕ)) ⟨[], [], [], [], [], 2⟩) :=
  ⟨Or.inl rfl,
    solve_bundle_adjustment_fallback (fun _ _ _ _ => (0 : ℕ)) true (fun _ _ => 1) false
      ⟨[], [], [], [], [], 2⟩ (Or.inl rfl)⟩

lemma reshapeRows_length (rows width : ℕ) (l : List ℝ) :
    (reshapeRows rows width l).length = rows := by
  induction rows generalizing l with
  | zero => rfl
  | succ r ih => simp [reshapeRows, ih]

lemma reshapeRows_row_length (rows width : ℕ) (l : List ℝ)
    (h : l.length = rows * width) :
    ∀ row ∈ reshapeRows rows width l, row.length = width := by
  induction rows generalizing l with
  | zero => simp [reshapeRows]
  | succ r ih =>
    intro row hrow
    simp only [reshapeRows, List.mem_cons] at hrow
    rcases hrow with rfl | hrow
    · rw [List.length_take]
      have : width ≤ l.length := by
        rw [h, Nat.succ_mul]
        omega
      omega
    · refine ih (l.drop width) ?_ row hrow
      rw [List.length_drop, h, Nat.succ_mul]
      omega

/-- Claim C9: on a BAL file with enough lines for its header counts,
`read_bal_data` returns camera parameters of shape `(n_cameras, 9)`,
points of shape `(n_points, 3)`, index arrays of length
`n_observations`, and pixel measurements of length `n_observations`. -/
theorem read_bal_data_shapes (file : BalFile)
    (hobs : file.n_observations ≤ file.obs_lines.length)
    (hval : file.n_cameras * 9 + file.n_points * 3 ≤ file.value_lines.length) :
    ∃ camera_params points_3d camera_indices point_indices points_2d,
      read_bal_data file =
        some (camera_params, points_3d, camera_indices, point_indices, points_2d) ∧
      camera_params.length = file.n_cameras ∧
      (∀ row ∈ camera_params, row.length = 9) ∧
      points_3d.length = file.n_points ∧
      (∀ row ∈ points_3d, row.length = 3) ∧
      camera_indices.length = file.n_observations ∧
      point_indices.length = file.n_observations ∧
      points_2d.length = file.n_observations := by
  refine ⟨reshapeRows file.n_cameras 9 (file.value_lines.take (file.n_cameras * 9)),
    reshapeRows file.n_points 3
      ((file.value_lines.drop (file.n_cameras * 9)).take (file.n_points * 3)),
    (file.obs_lines.take file.n_observations).map (fun o => o.1),
    (file.obs_lines.take file.n_observations).map (fun o => o.2.1),
    (file.obs_lines.take file.n_observations).map (fun o => (o.2.2.1, o.2.2.2)),
    ?_, ?_, ?_, ?_, ?_, ?_, ?_, ?_⟩
  · rw [read_bal_data, if_pos ⟨hobs, hval⟩]
  · exact reshapeRows_length _ _ _
  · refine reshapeRows_row_length _ _ _ ?_
    rw [List.length_take]
    omega
  · exact reshapeRows_length _ _ _
  · refine reshapeRows_row_length _ _ _ ?_
    rw [List.length_take, List.length_drop]
    omega
  · rw [List.length_map, List.length_take]
    omega
  · rw [List.length_map, List.length_take]
    omega
  · rw [List.length_map, List.length_take]
    omega

/-- Witness for C9: one camera, one point, one observation, twelve values. -/
theorem read_bal_data_shapes_witness :
    ((BalFile.mk 1 1 1 [(0, 0, 7, 8)] [0, 0, 0, 0, 0, 0, 1, 0, 0, 1, 2, 5]).n_observations ≤
        (BalFile.mk 1 1 1 [(0, 0, 7, 8)] [0, 0, 0, 0, 0, 0, 1, 0, 0, 1, 2, 5]).obs_lines.length) ∧
    (∃ camera_params points_3d camera_indices point_indices points_2d,
      read_bal_data (BalFile.mk 1 1 1 [(0, 0, 7, 8)] [0, 0, 0, 0, 0, 0, 1, 0, 0, 1, 2, 5]) =
        some (camera_params, points_3d, camera_indices, point_indices, points_2d) ∧
      camera_params.length = 1 ∧
      (∀ row ∈ camera_params, row.length = 9) ∧
      points_3d.length = 1 ∧
      (∀ row ∈ points_3d, row.length = 3) ∧
      camera_indices.length = 1 ∧
      point_indices.length = 1 ∧
      points_2d.length = 1) :=
  ⟨Nat.le_refl 1,
    read_bal_data_shapes (BalFile.mk 1 1 1 [(0, 0, 7, 8)] [0, 0, 0, 0, 0, 0, 1, 0, 0, 1, 2, 5])
      (Nat.le_refl 1) (by simp)⟩

end BAL
